import Mathlib

/-!
Verification development for the WoWTextureViewer repository.

The embedding models `src/main.py` (primary implementation) and, where a
claim concerns it, `src/backend/main.py`.  Python strings are Lean
`String`s (operated on through their `List Char` data), bytes are
`List Nat`, filesystem paths are component lists (`List String`), and the
external image libraries (imageio / PIL), which are not part of the
repository, are abstract decoders supplied as parameters.  The SQLite
table is an insertion-ordered list of rows; the SQL fragments used by the
code (INSERT / SELECT ... LIKE ... ORDER BY created_at DESC / DELETE) are
embedded as list operations together with an explicit model of SQLite's
LIKE pattern matching.
-/

/-- ASCII lower-casing of one character: model of CPython's `str.lower`
restricted to ASCII, which is also exactly what SQLite's `LOWER` does.
(`str.lower` and `LOWER` agree on ASCII data, the only data the claims
exercise.) -/
def pyLowerChar (c : Char) : Char :=
  if 65 ≤ c.toNat ∧ c.toNat ≤ 90 then Char.ofNat (c.toNat + 32) else c

/-- Model of Python `s.lower()` (ASCII fragment). -/
def pyLower (s : String) : String :=
  ⟨s.data.map pyLowerChar⟩

/-- The characters of a string strictly after the last occurrence of
`sep`; the whole string when `sep` does not occur.  This is Python's
`s.split(sep)[-1]` for a one-character separator. -/
def afterLastSep (sep : Char) : List Char → List Char
  | [] => []
  | c :: cs =>
    if sep ∈ cs then afterLastSep sep cs
    else if c = sep then cs
    else c :: cs

/-- `f.filename.split("/")[-1].split("\\")[-1]` from `src/main.py` line 140:
strip any path components, keep the trailing component. -/
def pyBasename (s : String) : String :=
  ⟨afterLastSep '\\' (afterLastSep '/' s.data)⟩

/-- `SUPPORTED` from `src/main.py` line 85 (a Python set; iteration order
is immaterial because no supported extension is a suffix of another). -/
def SUPPORTED : List String :=
  [".png", ".jpg", ".jpeg", ".webp", ".bmp"]

/-- `ext_of` from `src/main.py` lines 88-93: lower-case the name and
return the first supported extension it ends with, else `""`. -/
def ext_of (filename : String) : String :=
  match SUPPORTED.find? (fun e => decide (e.data <:+ (pyLower filename).data)) with
  | some e => e
  | none => ""

/-! ## Codec adapters (external decoding libraries, abstracted) -/

/-- Result of `imageio.imread`: a pixel array with its numpy shape.
`shape0` is `shape[0]` (rows / height), `shape1` is `shape[1]`
(columns / width), `channels` the number of color channels of the array
(3 for RGB, 4 for RGBA, ...). -/
structure ImArray where
  shape0 : Nat
  shape1 : Nat
  channels : Nat
  pixels : List Nat
  deriving DecidableEq, Repr

/-- The canonical byte stream produced by `imageio.imwrite(buf, a, format="PNG")`:
modelled at the level of its decoded content, i.e. a PNG container holding
exactly the array that was written (the encoder is lossless and fixed to
the PNG format by the call). -/
structure PngArr where
  arr : ImArray
  deriving DecidableEq, Repr

/-- Abstract interface of the external `imageio` library: `imread` either
decodes a byte string into a pixel array or fails (raising, which the
adapter turns into `UnidentifiedImageError`). -/
structure ImageioLib where
  imread : List Nat → Option ImArray

/-- `to_png_bytes` from `src/main.py` lines 96-113: read via imageio,
take `h, w = shape[0], shape[1]`, re-encode the array as PNG, and return
`(png, w, h, "unknown")`; any failure is re-raised as
`UnidentifiedImageError` (modelled as `none`). -/
def to_png_bytes (lib : ImageioLib) (raw : List Nat) :
    Option (PngArr × Nat × Nat × String) :=
  match lib.imread raw with
  | none => none
  | some a => some (⟨a⟩, a.shape1, a.shape0, "unknown")

/-- A PIL image as the backend sees it: its reported `format`, its channel
`mode` (e.g. "RGB", "RGBA"), its size and pixel content. -/
structure PILImage where
  format : Option String
  mode : String
  width : Nat
  height : Nat
  pixels : List Nat
  deriving DecidableEq, Repr

/-- Abstract interface of the external PIL library for
`src/backend/main.py`: `Image.open` either yields an image or raises
`UnidentifiedImageError` (modelled as `none`). -/
structure PILLib where
  pilOpen : List Nat → Option PILImage

/-- Model of PIL's `im.convert("RGBA")`: re-expresses the pixel data in
RGBA mode, preserving the image size (documented PIL behavior). -/
def convertRGBA (im : PILImage) : PILImage :=
  { im with mode := "RGBA" }

/-- The canonical byte stream produced by `im.save(buf, format="PNG")` in
the backend: a PNG container holding the (converted) image. -/
structure PngPIL where
  img : PILImage
  deriving DecidableEq, Repr

/-- `to_png_bytes` from `src/backend/main.py` lines 85-93: open with PIL,
remember `im.format or "?"`, convert to RGBA, save as PNG, and return
`(png, w, h, fmt)`. -/
def backend_to_png_bytes (lib : PILLib) (raw : List Nat) :
    Option (PngPIL × Nat × Nat × String) :=
  match lib.pilOpen raw with
  | none => none
  | some im₀ =>
    let fmt := im₀.format.getD "?"
    let im := convertRGBA im₀
    some (⟨im⟩, im.width, im.height, fmt)

/-! ## Data model, filesystem and system state -/

/-- The `ImageItem` pydantic model / `images` table row of `src/main.py`
lines 75-81 (widths and heights are numeric columns, the rest TEXT). -/
structure ImageItem where
  id : String
  name : String
  width : Nat
  height : Nat
  url : String
  created_at : String
  deriving DecidableEq, Repr

/-- Content of a file on disk: a canonical PNG written by the upload
pipeline, the SQLite database file, or arbitrary other bytes. -/
inductive FileData where
  | png (p : PngArr)
  | dbFile (rows : List ImageItem)
  | raw (bytes : List Nat)
  deriving DecidableEq, Repr

/-- Filesystem paths are component lists; the association list maps a
path to the content of the file stored there. -/
abbrev FS : Type := List (List String × FileData)

/-- Write (create or overwrite) a file, as `open(path, "wb").write` does. -/
def fsWrite (fs : FS) (p : List String) (d : FileData) : FS :=
  (p, d) :: List.filter (fun e => !(e.1 == p)) fs

/-- Look up a file's content. -/
def fsLookup (fs : FS) (p : List String) : Option FileData :=
  (List.find? (fun e => e.1 == p) fs).map (fun e => e.2)

/-- `path.exists()`. -/
def fsExists (fs : FS) (p : List String) : Bool :=
  (fsLookup fs p).isSome

/-- `path.unlink()`. -/
def fsRemove (fs : FS) (p : List String) : FS :=
  List.filter (fun e => !(e.1 == p)) fs

/-- Combined persistent state: the `images` table (in insertion order;
SQLite assigns increasing rowids) and the filesystem. -/
structure Sys where
  table : List ImageItem
  files : FS

/-- Static configuration of `src/main.py` lines 17-26: `STATIC_DIR` and
`IMAGE_DIR` (the latter env-overridable, so an arbitrary path). -/
structure Config where
  staticDir : List String
  imageDir : List String

/-- `DB_PATH = IMAGE_DIR / "images.db"` from `src/main.py` line 26. -/
def DB_PATH (cfg : Config) : List String :=
  cfg.imageDir ++ ["images.db"]

/-- Environment of one request: the decoding library, the stream of
`uuid.uuid4().hex` values, the stream of `datetime.utcnow().isoformat()`
values, and fault models for filesystem writes and removals (`writeOk p`
is false when writing to `p` raises, `removeOk p` false when `unlink`
raises). -/
structure Env where
  lib : ImageioLib
  uuid : Nat → String
  clock : Nat → String
  writeOk : List String → Bool
  removeOk : List String → Bool

/-- `HTTPException(status_code=..., detail=...)`. -/
structure HErr where
  status : Nat
  detail : String
  deriving DecidableEq, Repr

/-- The `{"ok": True}` response of the delete handler. -/
structure OkResp where
  ok : Bool
  deriving DecidableEq, Repr

/-! ## Storage manager: public URL computation -/

/-- `build_public_url` from `src/main.py` lines 116-127:
`file_path.relative_to(STATIC_DIR)` succeeds exactly when `STATIC_DIR` is
a component prefix of the path (else `ValueError`), in which case the
relative part is joined with "/" (pathlib yields "." when the path equals
the root); otherwise the bare file name is served through
`/api/file/{name}`. -/
def build_public_url (cfg : Config) (p : List String) : String :=
  if cfg.staticDir <+: p then
    let rel := p.drop cfg.staticDir.length
    "/static/" ++ (if rel.isEmpty then "." else String.intercalate "/" rel)
  else
    "/api/file/" ++ p.getLastD ""

/-- The file name `f"{iid}.png"` used by the upload route. -/
def pngName (iid : String) : String := iid ++ ".png"

/-! ## Upload pipeline -/

/-- One submitted multipart file: its client-supplied filename and its
byte content (`await f.read()`). -/
structure UF where
  filename : String
  content : List Nat

/-- The body of the `for f in files` loop of `src/main.py` lines 139-174,
acting on the state; `k` indexes the uuid/clock streams.  Returns the new
state, the record appended to `out` (if any), and the next stream index.
Failure handling mirrors the source: unsupported extension and
`UnidentifiedImageError` skip before a uuid is drawn; a write fault skips
after the uuid was drawn; a duplicate-key INSERT failure (possible only
if the uuid generator repeats itself) is swallowed by the generic
`except`, leaving the written file orphaned. -/
def processFile (env : Env) (cfg : Config) (st : Sys) (k : Nat) (f : UF) :
    Sys × Option ImageItem × Nat :=
  let name := pyBasename f.filename
  if ext_of name = "" then (st, none, k)
  else
    match to_png_bytes env.lib f.content with
    | none => (st, none, k)
    | some (png, w, h, _fmt) =>
      let iid := env.uuid k
      let path := cfg.imageDir ++ [pngName iid]
      if env.writeOk path then
        let files₁ := fsWrite st.files path (FileData.png png)
        let url := build_public_url cfg path
        let created := env.clock k
        if st.table.any (fun r => r.id == iid) then
          (⟨st.table, files₁⟩, none, k + 1)
        else
          let item : ImageItem := ⟨iid, name, w, h, url, created⟩
          (⟨st.table ++ [item], files₁⟩, some item, k + 1)
      else (st, none, k + 1)

/-- The whole `for` loop: processes the files in submission order,
threading state and stream index, collecting the `out` list. -/
def uploadLoop (env : Env) (cfg : Config) :
    Sys → Nat → List UF → Sys × Nat × List ImageItem
  | st, k, [] => (st, k, [])
  | st, k, f :: fs =>
    let p := processFile env cfg st k f
    let rest := uploadLoop env cfg p.1 p.2.2 fs
    (rest.1, rest.2.1, p.2.1.toList ++ rest.2.2)

/-- `upload` from `src/main.py` lines 131-177: reject an empty batch with
HTTP 400, otherwise run the loop and return the accumulated records.  The
pair also carries the resulting state (unchanged when the batch is
rejected, since the exception is raised before any work). -/
def upload (env : Env) (cfg : Config) (st : Sys) (k : Nat) (files : List UF) :
    Except HErr (List ImageItem) × Sys :=
  if files.isEmpty then (Except.error ⟨400, "No files provided."⟩, st)
  else
    let r := uploadLoop env cfg st k files
    (Except.ok r.2.2, r.1)

/-! ## Metadata store: listing with search -/

/-- SQLite `LIKE` pattern matching (no ESCAPE clause): `%` matches any
sequence of characters, `_` any single character, anything else itself.
Character comparison is exact because both sides are already lower-cased
by the query (`LOWER(name) LIKE '%' + search.lower() + '%'`). -/
def likeMatch : List Char → List Char → Bool
  | [], ts => ts.isEmpty
  | p :: ps, ts =>
    if p = '%' then ts.tails.any (fun u => likeMatch ps u)
    else
      match ts with
      | [] => false
      | c :: ts' =>
        if p = '_' then likeMatch ps ts'
        else (p == c) && likeMatch ps ts'

/-- Insert a row into a list kept in descending `created_at` order. -/
def insertByDesc (r : ImageItem) : List ImageItem → List ImageItem
  | [] => [r]
  | x :: xs =>
    if decide (x.created_at ≤ r.created_at) then r :: x :: xs
    else x :: insertByDesc r xs

/-- `ORDER BY created_at DESC`: SQLite sorts the TEXT column by byte
order, i.e. lexicographically; descending. -/
def sortRowsDesc : List ImageItem → List ImageItem
  | [] => []
  | x :: xs => insertByDesc x (sortRowsDesc xs)

/-- `list_images` from `src/main.py` lines 180-195: `if search:` (None
and "" are falsy) select all rows ordered newest first, else filter with
`LOWER(name) LIKE '%' + search.lower() + '%'`. -/
def list_images (st : Sys) (search : Option String) : List ImageItem :=
  match search with
  | none => sortRowsDesc st.table
  | some s =>
    if s.isEmpty then sortRowsDesc st.table
    else
      let pat := '%' :: ((pyLower s).data ++ ['%'])
      sortRowsDesc (List.filter (fun r => likeMatch pat (pyLower r.name).data) st.table)

/-! ## Delete and file serving -/

/-- The store-level lookup `SELECT ... FROM images WHERE id = ?` (used by
the delete route, `src/main.py` line 201; the spec's `get(id)`). -/
def get_image (st : Sys) (image_id : String) : Option ImageItem :=
  List.find? (fun r => r.id == image_id) st.table

/-- Drop the first `n` characters of a string (`url[n:]`). -/
def strDrop (s : String) (n : Nat) : String := ⟨s.data.drop n⟩

/-- Split a string on `/` into nonempty components, as pathlib does when
a relative string is joined onto a `Path`. -/
def splitOnSlash : List Char → List Char → List String
  | acc, [] => if acc.isEmpty then [] else [⟨acc.reverse⟩]
  | acc, c :: cs =>
    if c = '/' then
      if acc.isEmpty then splitOnSlash [] cs
      else ⟨acc.reverse⟩ :: splitOnSlash [] cs
    else splitOnSlash (c :: acc) cs
  termination_by _ cs => cs.length

/-- `delete_image` from `src/main.py` lines 198-222: 404 when the id is
unknown (raised before any mutation); otherwise delete the row, commit,
then best-effort remove the backing file — the path is recovered from the
url, a missing file is simply not removed, and any `unlink` fault is
swallowed by `except Exception: pass`. -/
def delete_image (env : Env) (cfg : Config) (st : Sys) (image_id : String) :
    Except HErr OkResp × Sys :=
  match List.find? (fun r => r.id == image_id) st.table with
  | none => (Except.error ⟨404, "Not found"⟩, st)
  | some row =>
    let table₂ := List.filter (fun r => !(r.id == image_id)) st.table
    let url := row.url
    let path? : Option (List String) :=
      if decide ("/static/".data <+: url.data) then
        some (cfg.staticDir ++ splitOnSlash [] (strDrop url 8).data)
      else if decide ("/api/file/".data <+: url.data) then
        some (cfg.imageDir ++ [⟨afterLastSep '/' url.data⟩])
      else none
    let files₂ :=
      match path? with
      | none => st.files
      | some p =>
        if fsExists st.files p then
          if env.removeOk p then fsRemove st.files p else st.files
        else st.files
    (Except.ok ⟨true⟩, ⟨table₂, files₂⟩)

/-- `serve_file` from `src/main.py` lines 225-233: resolve
`IMAGE_DIR / name`, 404 when absent, otherwise return the file's bytes
(whatever they are; the handler inspects only existence). -/
def serve_file (cfg : Config) (st : Sys) (name : String) : Except HErr FileData :=
  match fsLookup st.files (cfg.imageDir ++ [name]) with
  | none => Except.error ⟨404, "Not found"⟩
  | some d => Except.ok d

/-! ## Derived definitions and concrete fixtures for the witnesses -/

/-- Abbreviation for the record the pipeline constructs for file `f`
decoded as array `a` at stream index `k` (id, stripped name, `w`, `h`,
public url of `IMAGE_DIR/{iid}.png`, timestamp). -/
def mkRec (env : Env) (cfg : Config) (k : Nat) (f : UF) (a : ImArray) : ImageItem :=
  ⟨env.uuid k, pyBasename f.filename, a.shape1, a.shape0,
   build_public_url cfg (cfg.imageDir ++ [pngName (env.uuid k)]), env.clock k⟩

/-- Default elements used to state positional correspondences. -/
def dfltUF : UF := ⟨"", []⟩

def dfltItem : ImageItem := ⟨"", "", 0, 0, "", ""⟩

/-! ## Concrete fixtures used by the witnesses -/

/-- A concrete decoder: fails on empty byte strings, decodes anything
else as a fixed 2x3 RGBA array. -/
def libW : ImageioLib :=
  ⟨fun raw => if raw.isEmpty then none else some ⟨2, 3, 4, [7]⟩⟩

def envW : Env :=
  ⟨libW, fun n => ⟨List.replicate (n + 1) 'u'⟩, fun n => ⟨List.replicate (n + 1) 't'⟩,
   fun _ => true, fun _ => true⟩

def cfgW : Config := ⟨["app", "static"], ["app", "static", "images"]⟩

def sysW : Sys := ⟨[], []⟩

def fW : UF := ⟨"tex/Spell_Frost.PNG", [9]⟩

/-- The descending order on rows used by `ORDER BY created_at DESC`. -/
def createdGE (a b : ImageItem) : Prop := b.created_at ≤ a.created_at

/-- A concrete store: one row named "abc". -/
def rowX : ImageItem := ⟨"1", "abc", 4, 4, "/static/images/1.png", "t0"⟩

def sysX : Sys := ⟨[rowX], []⟩

/-- An environment in which every filesystem removal faults. -/
def envNoRemove : Env :=
  ⟨libW, fun n => ⟨List.replicate (n + 1) 'u'⟩, fun n => ⟨List.replicate (n + 1) 't'⟩,
   fun _ => true, fun _ => false⟩

/-- A store whose filesystem holds the SQLite database file at `DB_PATH`,
as the deployed system always does (the DB lives inside `IMAGE_DIR`). -/
def sysDB : Sys :=
  ⟨[], [(["app", "static", "images", "images.db"], FileData.dbFile [rowX])]⟩

/-- Whether the canonical PNG produced by the imageio adapter carries an
alpha channel (RGBA or grey+alpha). -/
def pngArrHasAlpha (p : PngArr) : Bool :=
  (p.arr.channels == 4) || (p.arr.channels == 2)

/-- A decoder that reads any byte string as a 1x1 RGB (3-channel) array,
as imageio does for, e.g., any RGB JPEG. -/
def libRGB : ImageioLib := ⟨fun _ => some ⟨1, 1, 3, [0, 0, 0]⟩⟩

/-- A PIL model that opens any nonempty byte string as a 2x3 RGB BMP. -/
def pilW : PILLib :=
  ⟨fun b => if b.isEmpty then none else some ⟨some "BMP", "RGB", 2, 3, [5]⟩⟩

-- Sanity checks of the embedding on concrete inputs.
example : ext_of "Ability_Ambush.PNG" = ".png" := by decide
example : ext_of "foo.jpeg" = ".jpeg" := by decide
example : ext_of "foo.txt" = "" := by decide
example : ext_of "archive.png.exe" = "" := by decide
example : pyBasename "a/b\\c.png" = "c.png" := by decide
example : pyBasename "dir/" = "" := by decide
example : pyLower "AbC/Z.PNG" = "abc/z.png" := by decide

-- Sanity checks on concrete inputs.
example : likeMatch ('%' :: ("a_c".data ++ ['%'])) "xabcy".data = true := by decide
example : likeMatch ('%' :: ("abc".data ++ ['%'])) "xacy".data = false := by decide
example :
    build_public_url ⟨["app", "static"], ["app", "static", "images"]⟩
      ["app", "static", "images", "i.png"] = "/static/images/i.png" := by decide
example :
    build_public_url ⟨["app", "static"], ["data"]⟩ ["data", "i.png"] =
      "/api/file/i.png" := by decide

/-! ## Lemmas about the string utilities -/

theorem afterLastSep_suffix (sep : Char) :
    ∀ cs : List Char, afterLastSep sep cs <:+ cs := by
  intro cs
  induction cs with
  | nil => exact List.nil_suffix
  | cons c cs ih =>
    unfold afterLastSep
    split
    · exact ih.trans (List.suffix_cons c cs)
    · split
      · exact List.suffix_cons c cs
      · exact List.suffix_refl _

theorem suffix_afterLastSep {sep : Char} {e : List Char} (he : sep ∉ e) :
    ∀ {cs : List Char}, e <:+ cs → e <:+ afterLastSep sep cs := by
  intro cs
  induction cs with
  | nil => intro h; simpa [afterLastSep] using h
  | cons c cs ih =>
    intro h
    unfold afterLastSep
    split
    · rename_i hmem
      rcases List.suffix_cons_iff.mp h with h1 | h1
      · exact absurd (h1 ▸ List.mem_cons_of_mem c hmem) he
      · exact ih h1
    · split
      · rename_i hsep
        rcases List.suffix_cons_iff.mp h with h1 | h1
        · exact absurd (h1 ▸ List.mem_cons_self c cs) (hsep ▸ he)
        · exact h1
      · exact h

theorem afterLastSep_map {f : Char → Char} {sep : Char}
    (hf : ∀ c, f c = sep ↔ c = sep) :
    ∀ cs : List Char, afterLastSep sep (cs.map f) = (afterLastSep sep cs).map f := by
  intro cs
  induction cs with
  | nil => simp [afterLastSep]
  | cons c cs ih =>
    have hmem : sep ∈ cs.map f ↔ sep ∈ cs := by
      constructor
      · intro h
        rcases List.mem_map.mp h with ⟨a, ha, hfa⟩
        exact ((hf a).mp hfa) ▸ ha
      · intro h
        exact List.mem_map.mpr ⟨sep, h, (hf sep).mpr rfl⟩
    by_cases h1 : sep ∈ cs
    · simp only [List.map_cons, afterLastSep, if_pos h1, if_pos (hmem.mpr h1)]
      exact ih
    · by_cases h2 : c = sep
      · simp only [List.map_cons, afterLastSep, if_neg h1, if_neg (fun h => h1 (hmem.mp h)),
          if_pos h2, if_pos ((hf c).mpr h2)]
      · simp only [List.map_cons, afterLastSep, if_neg h1, if_neg (fun h => h1 (hmem.mp h)),
          if_neg h2, if_neg (fun h => h2 ((hf c).mp h))]

/-- Kernel-checkable fact about ASCII lowering of the alphabetic range. -/
theorem char_ofNat_toNat_lower :
    ∀ m : Nat, m < 123 → 97 ≤ m → (Char.ofNat m).toNat = m := by decide

/-- For a character `d` that is neither an ASCII upper nor lower case
letter, `pyLowerChar` maps a character to `d` only if it is `d`. -/
theorem pyLowerChar_eq_iff {d : Char}
    (hd1 : ¬(65 ≤ d.toNat ∧ d.toNat ≤ 90))
    (hd2 : ¬(97 ≤ d.toNat ∧ d.toNat ≤ 122)) :
    ∀ c, pyLowerChar c = d ↔ c = d := by
  intro c
  constructor
  · intro h
    unfold pyLowerChar at h
    split at h
    · rename_i hc
      exfalso
      apply hd2
      have hv : (Char.ofNat (c.toNat + 32)).toNat = c.toNat + 32 :=
        char_ofNat_toNat_lower _ (by omega) (by omega)
      have := congrArg Char.toNat h
      rw [hv] at this
      omega
    · exact h
  · intro h
    subst h
    unfold pyLowerChar
    rw [if_neg hd1]

theorem find?_congrPred {α : Type} {p q : α → Bool} :
    ∀ {l : List α}, (∀ a ∈ l, p a = q a) → l.find? p = l.find? q := by
  intro l
  induction l with
  | nil => intro _; rfl
  | cons a l ih =>
    intro h
    rw [List.find?_cons, List.find?_cons, h a (List.mem_cons_self a l)]
    split
    · rfl
    · exact ih fun b hb => h b (List.mem_cons_of_mem a hb)

/-- Lower-casing commutes with stripping path components: neither `/`
nor `\` is an ASCII letter. -/
theorem pyLower_pyBasename (s : String) :
    (pyLower (pyBasename s)).data =
      afterLastSep '\\' (afterLastSep '/' (pyLower s).data) := by
  have hs : ∀ c, pyLowerChar c = '/' ↔ c = '/' :=
    pyLowerChar_eq_iff (by decide) (by decide)
  have hb : ∀ c, pyLowerChar c = '\\' ↔ c = '\\' :=
    pyLowerChar_eq_iff (by decide) (by decide)
  show (afterLastSep '\\' (afterLastSep '/' s.data)).map pyLowerChar =
    afterLastSep '\\' (afterLastSep '/' (s.data.map pyLowerChar))
  rw [afterLastSep_map hs, afterLastSep_map hb]

/-- No supported extension contains a path separator. -/
theorem SUPPORTED_no_sep :
    ∀ e ∈ SUPPORTED, '/' ∉ e.data ∧ '\\' ∉ e.data := by decide

/-- Stripping path components does not change the classification: the
trailing component ends with a supported extension exactly when the whole
filename does. -/
theorem ext_of_pyBasename (s : String) : ext_of (pyBasename s) = ext_of s := by
  unfold ext_of
  have : SUPPORTED.find? (fun e => decide (e.data <:+ (pyLower (pyBasename s)).data)) =
      SUPPORTED.find? (fun e => decide (e.data <:+ (pyLower s).data)) := by
    apply find?_congrPred
    intro e he
    rcases SUPPORTED_no_sep e he with ⟨h1, h2⟩
    rw [decide_eq_decide, pyLower_pyBasename]
    constructor
    · intro h
      exact (h.trans (afterLastSep_suffix _ _)).trans (afterLastSep_suffix _ _)
    · intro h
      exact suffix_afterLastSep h2 (suffix_afterLastSep h1 h)
  rw [this]

/-- The classifier returns `""` exactly when the lower-cased filename
ends with no extension of the allow-list. -/
theorem ext_of_eq_empty_iff (s : String) :
    ext_of s = "" ↔ ∀ e ∈ SUPPORTED, ¬ (e.data <:+ (pyLower s).data) := by
  unfold ext_of
  have hne : ∀ e ∈ SUPPORTED, e ≠ "" := by decide
  constructor
  · intro h e he hsuf
    rcases hfind : SUPPORTED.find? (fun e => decide (e.data <:+ (pyLower s).data)) with _ | e₀
    · have := List.find?_eq_none.mp hfind e he
      simp only [decide_eq_true_iff] at this
      exact this hsuf
    · rw [hfind] at h
      exact hne e₀ (List.mem_of_find?_eq_some hfind) h
  · intro h
    rcases hfind : SUPPORTED.find? (fun e => decide (e.data <:+ (pyLower s).data)) with _ | e₀
    · rw [hfind]
    · have h1 := List.find?_some hfind
      simp only [decide_eq_true_iff] at h1
      exact absurd h1 (h e₀ (List.mem_of_find?_eq_some hfind))

/-! ## Behavior of the per-file pipeline step -/

theorem processFile_skip_ext (env : Env) (cfg : Config) (st : Sys) (k : Nat) (f : UF)
    (h : ext_of (pyBasename f.filename) = "") :
    processFile env cfg st k f = (st, none, k) := by
  unfold processFile
  rw [if_pos h]

theorem processFile_skip_decode (env : Env) (cfg : Config) (st : Sys) (k : Nat) (f : UF)
    (h1 : ¬ ext_of (pyBasename f.filename) = "")
    (h2 : env.lib.imread f.content = none) :
    processFile env cfg st k f = (st, none, k) := by
  unfold processFile to_png_bytes
  rw [if_neg h1, h2]

theorem processFile_skip_write (env : Env) (cfg : Config) (st : Sys) (k : Nat) (f : UF)
    (a : ImArray)
    (h1 : ¬ ext_of (pyBasename f.filename) = "")
    (h2 : env.lib.imread f.content = some a)
    (h3 : env.writeOk (cfg.imageDir ++ [pngName (env.uuid k)]) = false) :
    processFile env cfg st k f = (st, none, k + 1) := by
  unfold processFile to_png_bytes
  rw [if_neg h1, h2]
  simp only [h3, Bool.false_eq_true, if_false]

theorem processFile_success (env : Env) (cfg : Config) (st : Sys) (k : Nat) (f : UF)
    (a : ImArray)
    (h1 : ¬ ext_of (pyBasename f.filename) = "")
    (h2 : env.lib.imread f.content = some a)
    (h3 : env.writeOk (cfg.imageDir ++ [pngName (env.uuid k)]) = true)
    (h4 : st.table.any (fun r => r.id == env.uuid k) = false) :
    processFile env cfg st k f =
      (⟨st.table ++ [mkRec env cfg k f a],
        fsWrite st.files (cfg.imageDir ++ [pngName (env.uuid k)]) (FileData.png ⟨a⟩)⟩,
       some (mkRec env cfg k f a), k + 1) := by
  unfold processFile to_png_bytes
  rw [if_neg h1, h2]
  simp only [h3, if_true, h4, Bool.false_eq_true, if_false, mkRec]

theorem uploadLoop_cons (env : Env) (cfg : Config) (st : Sys) (k : Nat) (f : UF)
    (fs : List UF) :
    uploadLoop env cfg st k (f :: fs) =
      ((uploadLoop env cfg (processFile env cfg st k f).1
          (processFile env cfg st k f).2.2 fs).1,
       (uploadLoop env cfg (processFile env cfg st k f).1
          (processFile env cfg st k f).2.2 fs).2.1,
       (processFile env cfg st k f).2.1.toList ++
         (uploadLoop env cfg (processFile env cfg st k f).1
            (processFile env cfg st k f).2.2 fs).2.2) := rfl

/-- A file whose filename carries a supported extension passes the
classifier also after path stripping. -/
theorem ext_of_basename_ne_empty {f : UF}
    (hext : ∃ e ∈ SUPPORTED, e.data <:+ (pyLower f.filename).data) :
    ¬ ext_of (pyBasename f.filename) = "" := by
  intro heq
  rw [ext_of_pyBasename] at heq
  rcases hext with ⟨e, he, hs⟩
  exact (ext_of_eq_empty_iff _).mp heq e he hs

/-- On a batch where every file has a supported extension and decodable
content, and no filesystem write faults, the loop consumes one uuid per
file and produces exactly one record per file, positionally. -/
theorem uploadLoop_all_success (env : Env) (cfg : Config) :
    ∀ (files : List UF) (st : Sys) (k : Nat),
    (∀ f ∈ files, ∃ e ∈ SUPPORTED, e.data <:+ (pyLower f.filename).data) →
    (∀ f ∈ files, (env.lib.imread f.content).isSome = true) →
    (∀ p, env.writeOk p = true) →
    (∀ i j : Nat, ¬ i = j → ¬ env.uuid i = env.uuid j) →
    (∀ n, k ≤ n → ∀ r ∈ st.table, ¬ r.id = env.uuid n) →
    ∃ (st₂ : Sys) (out : List ImageItem),
      uploadLoop env cfg st k files = (st₂, k + files.length, out) ∧
      out.length = files.length ∧
      ∀ i, i < files.length →
        ∃ a, env.lib.imread ((files.getD i dfltUF).content) = some a ∧
          out.getD i dfltItem = mkRec env cfg (k + i) (files.getD i dfltUF) a := by
  intro files
  induction files with
  | nil =>
    intro st k _ _ _ _ _
    exact ⟨st, [], by simp [uploadLoop], rfl, fun i hi => absurd hi (by simp)⟩
  | cons f fs ih =>
    intro st k hext hdec hw hfresh hnew
    have h1 : ¬ ext_of (pyBasename f.filename) = "" :=
      ext_of_basename_ne_empty (hext f (List.mem_cons_self f fs))
    rcases Option.isSome_iff_exists.mp (hdec f (List.mem_cons_self f fs)) with ⟨a, h2⟩
    have h4 : st.table.any (fun r => r.id == env.uuid k) = false :=
      List.any_eq_false.mpr fun r hr hbeq =>
        hnew k (Nat.le_refl k) r hr (by simpa using hbeq)
    have hp := processFile_success env cfg st k f a h1 h2 (hw _) h4
    have hnew₁ : ∀ n, k + 1 ≤ n →
        ∀ r ∈ st.table ++ [mkRec env cfg k f a], ¬ r.id = env.uuid n := by
      intro n hn r hr
      rcases List.mem_append.mp hr with hr | hr
      · exact hnew n (by omega) r hr
      · rcases List.mem_singleton.mp hr with rfl
        exact hfresh k n (by omega)
    rcases ih ⟨st.table ++ [mkRec env cfg k f a],
        fsWrite st.files (cfg.imageDir ++ [pngName (env.uuid k)]) (FileData.png ⟨a⟩)⟩
        (k + 1)
        (fun g hg => hext g (List.mem_cons_of_mem f hg))
        (fun g hg => hdec g (List.mem_cons_of_mem f hg))
        hw hfresh hnew₁ with ⟨st₂, out, heq, hlen, hidx⟩
    refine ⟨st₂, mkRec env cfg k f a :: out, ?_, by simp [hlen], ?_⟩
    · rw [uploadLoop_cons, hp]
      simp only [heq]
      have : k + 1 + fs.length = k + (fs.length + 1) := by omega
      simp [this]
    · intro i hi
      cases i with
      | zero =>
        refine ⟨a, by simpa using h2, ?_⟩
        simp [List.getD_cons_zero]
      | succ i =>
        have hi' : i < fs.length := by simpa using hi
        rcases hidx i hi' with ⟨a', ha', hrec⟩
        refine ⟨a', by simpa using ha', ?_⟩
        have : k + 1 + i = k + (i + 1) := by omega
        simpa [List.getD_cons_succ, this] using hrec

/-! ## Claims about the upload pipeline -/

/-- Claim C1: for every non-empty batch of submitted files whose
filenames have supported extensions and whose bytes decode as valid
images (and whose storage writes do not fault, with the uuid stream fresh
as the design assumes), the upload operation returns exactly one output
record per input file, in submission order, and each record's width and
height equal the pixel dimensions (`shape[1]`, `shape[0]`) of the decoded
image. -/
theorem c1_upload_one_record_per_file (env : Env) (cfg : Config) (st : Sys) (k : Nat)
    (files : List UF)
    (hne : files ≠ [])
    (hext : ∀ f ∈ files, ∃ e ∈ SUPPORTED, e.data <:+ (pyLower f.filename).data)
    (hdec : ∀ f ∈ files, (env.lib.imread f.content).isSome = true)
    (hw : ∀ p, env.writeOk p = true)
    (hfresh : ∀ i j : Nat, ¬ i = j → ¬ env.uuid i = env.uuid j)
    (hnew : ∀ n, ∀ r ∈ st.table, ¬ r.id = env.uuid n) :
    ∃ (out : List ImageItem) (st₂ : Sys),
      upload env cfg st k files = (Except.ok out, st₂) ∧
      out.length = files.length ∧
      ∀ i, i < files.length →
        ∃ a, env.lib.imread ((files.getD i dfltUF).content) = some a ∧
          (out.getD i dfltItem).width = a.shape1 ∧
          (out.getD i dfltItem).height = a.shape0 ∧
          (out.getD i dfltItem).name = pyBasename ((files.getD i dfltUF).filename) := by
  rcases uploadLoop_all_success env cfg files st k hext hdec hw hfresh
      (fun n _ r hr => hnew n r hr) with ⟨st₂, out, heq, hlen, hidx⟩
  have hemp : files.isEmpty = false := by
    cases files with
    | nil => exact absurd rfl hne
    | cons a l => rfl
  refine ⟨out, st₂, ?_, hlen, ?_⟩
  · unfold upload
    simp [hemp, heq]
  · intro i hi
    rcases hidx i hi with ⟨a, ha, hrec⟩
    exact ⟨a, ha, by rw [hrec]; rfl, by rw [hrec]; rfl, by rw [hrec]; rfl⟩

theorem c1_witness :
    ∃ (out : List ImageItem) (st₂ : Sys),
      upload envW cfgW sysW 0 [fW] = (Except.ok out, st₂) ∧
      out.length = [fW].length ∧
      ∀ i, i < [fW].length →
        ∃ a, envW.lib.imread (([fW].getD i dfltUF).content) = some a ∧
          (out.getD i dfltItem).width = a.shape1 ∧
          (out.getD i dfltItem).height = a.shape0 ∧
          (out.getD i dfltItem).name = pyBasename (([fW].getD i dfltUF).filename) :=
  c1_upload_one_record_per_file envW cfgW sysW 0 [fW]
    (List.cons_ne_nil _ _)
    (by decide)
    (by decide)
    (fun p => rfl)
    (fun i j hij h => by
      apply hij
      have h2 := congrArg (fun s : String => s.data.length) h
      simp only [envW] at h2
      simpa using h2)
    (fun n r hr => absurd hr (List.not_mem_nil r))

/-- Claim C2: a submitted file whose filename, lowercased, ends with no
extension of the fixed allow-list is skipped entirely: the per-file step
changes nothing and produces no record (whatever the byte content), and
the loop over a batch containing it behaves as if the file were absent. -/
theorem c2_unsupported_extension_skipped (env : Env) (cfg : Config) (st : Sys)
    (k : Nat) (f : UF)
    (hext : ∀ e ∈ SUPPORTED, ¬ (e.data <:+ (pyLower f.filename).data)) :
    processFile env cfg st k f = (st, none, k) ∧
    ∀ (st₀ : Sys) (k₀ : Nat) (fs : List UF),
      uploadLoop env cfg st₀ k₀ (f :: fs) = uploadLoop env cfg st₀ k₀ fs := by
  have h : ext_of (pyBasename f.filename) = "" := by
    rw [ext_of_pyBasename, ext_of_eq_empty_iff]
    exact hext
  refine ⟨processFile_skip_ext env cfg st k f h, ?_⟩
  intro st₀ k₀ fs
  rw [uploadLoop_cons, processFile_skip_ext env cfg st₀ k₀ f h]
  simp

theorem c2_witness :
    processFile envW cfgW sysW 0 ⟨"payload.png.exe", [9, 9]⟩ = (sysW, none, 0) ∧
    ∀ (st₀ : Sys) (k₀ : Nat) (fs : List UF),
      uploadLoop envW cfgW st₀ k₀ (⟨"payload.png.exe", [9, 9]⟩ :: fs) =
        uploadLoop envW cfgW st₀ k₀ fs :=
  c2_unsupported_extension_skipped envW cfgW sysW 0 ⟨"payload.png.exe", [9, 9]⟩
    (by decide)

/-- Claim C3: a file that passes classification but whose bytes do not
decode, or whose storage write faults, contributes nothing — the loop on
`f :: fs` equals the loop on `fs` alone (up to the uuid the faulted write
consumed) — and the upload handler never propagates an exception for a
non-empty batch: it always returns an `ok` response. -/
theorem c3_bad_file_skipped_batch_continues (env : Env) (cfg : Config) (st : Sys)
    (k : Nat) (f : UF) (fs : List UF)
    (hclass : ¬ ext_of (pyBasename f.filename) = "")
    (hfail : env.lib.imread f.content = none ∨
             env.writeOk (cfg.imageDir ++ [pngName (env.uuid k)]) = false) :
    (∃ k₂, (k₂ = k ∨ k₂ = k + 1) ∧
       uploadLoop env cfg st k (f :: fs) = uploadLoop env cfg st k₂ fs) ∧
    ∀ (gs : List UF), gs ≠ [] →
      ∃ (out : List ImageItem) (st₂ : Sys),
        upload env cfg st k gs = (Except.ok out, st₂) := by
  constructor
  · rcases himg : env.lib.imread f.content with _ | a
    · refine ⟨k, Or.inl rfl, ?_⟩
      rw [uploadLoop_cons, processFile_skip_decode env cfg st k f hclass himg]
      simp
    · have hwf : env.writeOk (cfg.imageDir ++ [pngName (env.uuid k)]) = false := by
        rcases hfail with h | h
        · rw [h] at himg; exact absurd himg (by simp)
        · exact h
      refine ⟨k + 1, Or.inr rfl, ?_⟩
      rw [uploadLoop_cons, processFile_skip_write env cfg st k f a hclass himg hwf]
      simp
  · intro gs hgs
    have hemp : gs.isEmpty = false := by
      cases gs with
      | nil => exact absurd rfl hgs
      | cons a l => rfl
    exact ⟨(uploadLoop env cfg st k gs).2.2, (uploadLoop env cfg st k gs).1,
      by unfold upload; simp [hemp]⟩

theorem c3_witness :
    (∃ k₂, (k₂ = 0 ∨ k₂ = 0 + 1) ∧
       uploadLoop envW cfgW sysW 0 (⟨"broken.png", []⟩ :: [fW]) =
         uploadLoop envW cfgW sysW k₂ [fW]) ∧
    ∀ (gs : List UF), gs ≠ [] →
      ∃ (out : List ImageItem) (st₂ : Sys),
        upload envW cfgW sysW 0 gs = (Except.ok out, st₂) :=
  c3_bad_file_skipped_batch_continues envW cfgW sysW 0 ⟨"broken.png", []⟩ [fW]
    (by decide) (Or.inl (by decide))

/-! ## Lemmas about sorting and LIKE matching -/

theorem insertByDesc_perm (r : ImageItem) :
    ∀ l : List ImageItem, (insertByDesc r l).Perm (r :: l) := by
  intro l
  induction l with
  | nil => exact List.Perm.refl _
  | cons x xs ih =>
    unfold insertByDesc
    split
    · exact List.Perm.refl _
    · exact (List.Perm.cons x ih).trans (List.Perm.swap r x xs)

theorem sortRowsDesc_perm : ∀ l : List ImageItem, (sortRowsDesc l).Perm l := by
  intro l
  induction l with
  | nil => exact List.Perm.refl _
  | cons x xs ih =>
    exact (insertByDesc_perm x (sortRowsDesc xs)).trans (List.Perm.cons x ih)

theorem insertByDesc_sorted (r : ImageItem) :
    ∀ {l : List ImageItem}, List.Sorted createdGE l →
      List.Sorted createdGE (insertByDesc r l) := by
  intro l
  induction l with
  | nil =>
    intro _
    simp [insertByDesc, List.sorted_cons, List.sorted_nil]
  | cons x xs ih =>
    intro h
    rcases List.sorted_cons.mp h with ⟨hx, hxs⟩
    unfold insertByDesc
    split
    · rename_i hle
      rw [decide_eq_true_iff] at hle
      apply List.sorted_cons.mpr
      refine ⟨?_, h⟩
      intro b hb
      rcases List.mem_cons.mp hb with rfl | hb
      · exact hle
      · exact le_trans (hx b hb) hle
    · rename_i hgt
      rw [decide_eq_true_iff] at hgt
      apply List.sorted_cons.mpr
      refine ⟨?_, ih hxs⟩
      intro b hb
      rcases List.mem_cons.mp (((insertByDesc_perm r xs).mem_iff).mp hb) with rfl | h1
      · exact (le_of_lt (lt_of_not_le hgt) : b.created_at ≤ x.created_at)
      · exact hx b h1

theorem sortRowsDesc_sorted : ∀ l : List ImageItem,
    List.Sorted createdGE (sortRowsDesc l) := by
  intro l
  induction l with
  | nil => exact List.sorted_nil
  | cons x xs ih => exact insertByDesc_sorted x ih

/-- With the new-style definition, a leading `%` means: some suffix of the
text matches the rest of the pattern. -/
theorem likeMatch_percent_cons (ps : List Char) (t : List Char) :
    likeMatch ('%' :: ps) t = true ↔ ∃ u, u <:+ t ∧ likeMatch ps u = true := by
  show (if ('%' : Char) = '%' then t.tails.any (fun u => likeMatch ps u) else _) = true ↔ _
  rw [if_pos rfl, List.any_eq_true]
  constructor
  · rintro ⟨u, hu, hm⟩
    exact ⟨u, (List.mem_tails u t).mp hu, hm⟩
  · rintro ⟨u, hu, hm⟩
    exact ⟨u, (List.mem_tails u t).mpr hu, hm⟩

/-- A wildcard-free pattern followed by `%` matches exactly the texts it
prefixes. -/
theorem likeMatch_plain_percent :
    ∀ (s : List Char), '%' ∉ s → '_' ∉ s →
      ∀ t : List Char, (likeMatch (s ++ ['%']) t = true ↔ s <+: t) := by
  intro s
  induction s with
  | nil =>
    intro _ _ t
    constructor
    · intro _
      exact List.nil_prefix
    · intro _
      rcases (likeMatch_percent_cons [] t) with ⟨_, h2⟩
      exact h2 ⟨[], List.nil_suffix, rfl⟩
  | cons c s ih =>
    intro hp hu t
    have hcp : ¬ c = '%' := fun h => hp (h ▸ List.mem_cons_self c s)
    have hcu : ¬ c = '_' := fun h => hu (h ▸ List.mem_cons_self c s)
    have hp' : '%' ∉ s := fun h => hp (List.mem_cons_of_mem c h)
    have hu' : '_' ∉ s := fun h => hu (List.mem_cons_of_mem c h)
    cases t with
    | nil =>
      simp only [List.cons_append, likeMatch, if_neg hcp]
      constructor
      · intro h
        exact absurd h (by simp)
      · intro h
        exact absurd h (by simp)
    | cons d t =>
      show (if c = '%' then _ else if c = '_' then _ else (c == d) && _) = true ↔ _
      rw [if_neg hcp, if_neg hcu, List.cons_prefix_cons, Bool.and_eq_true, beq_iff_eq]
      exact and_congr Iff.rfl (ih hp' hu' t)

/-- SQLite `LIKE '%s%'` with a wildcard-free `s` is exactly substring
containment. -/
theorem likeMatch_infix (s t : List Char) (hp : '%' ∉ s) (hu : '_' ∉ s) :
    likeMatch ('%' :: (s ++ ['%'])) t = true ↔ s <:+: t := by
  rw [likeMatch_percent_cons, List.infix_iff_prefix_suffix]
  constructor
  · rintro ⟨u, hu1, hu2⟩
    exact ⟨u, (likeMatch_plain_percent s hp hu u).mp hu2, hu1⟩
  · rintro ⟨u, hu1, hu2⟩
    exact ⟨u, hu2, (likeMatch_plain_percent s hp hu u).mpr hu1⟩

/-- Lower-casing introduces no LIKE wildcard characters. -/
theorem pyLower_no_wildcard {s : String} (hp : '%' ∉ s.data) (hu : '_' ∉ s.data) :
    '%' ∉ (pyLower s).data ∧ '_' ∉ (pyLower s).data := by
  constructor
  · intro h
    rcases List.mem_map.mp h with ⟨c, hc, heq⟩
    exact hp (((pyLowerChar_eq_iff (by decide) (by decide) c).mp heq) ▸ hc)
  · intro h
    rcases List.mem_map.mp h with ⟨c, hc, heq⟩
    exact hu (((pyLowerChar_eq_iff (by decide) (by decide) c).mp heq) ▸ hc)

/-! ## Claims about listing -/

/-- Claim C4 counterexample: with the search string "a_c", the code
returns the record named "abc" (the `_` acts as a SQL LIKE wildcard),
although "abc" does not contain the substring "a_c" — case-insensitively
or otherwise.  So "returns exactly the records whose name contains s" is
false as stated for wildcard-bearing search strings. -/
theorem c4_counterexample :
    list_images sysX (some "a_c") = [rowX] ∧
    ¬ ("a_c".data <:+: "abc".data) ∧
    ¬ ((pyLower "a_c").data <:+: (pyLower "abc").data) := by
  refine ⟨by decide, by decide, by decide⟩

/-- Claim C4 (amended): with no search argument (or an empty one), the
list operation returns exactly the stored records ordered by `created_at`
descending; a search string is spliced into a SQL LIKE pattern, so for
every search string free of the LIKE wildcards `%` and `_` the result is
exactly the records whose name contains the search case-insensitively, in
the same descending order (wildcard characters instead act as LIKE
patterns, as the counterexample shows). -/
theorem c4_list_sorted_filtered (st : Sys) (search : Option String)
    (hwild : ∀ s, search = some s → ('%' ∉ s.data ∧ '_' ∉ s.data)) :
    List.Sorted createdGE (list_images st search) ∧
    (list_images st search).Perm
      (List.filter
        (fun r => decide ((pyLower (search.getD "")).data <:+: (pyLower r.name).data))
        st.table) := by
  have hempty : (pyLower "").data = [] := by decide
  cases search with
  | none =>
    refine ⟨sortRowsDesc_sorted _, ?_⟩
    have hall : List.filter
        (fun r => decide ((pyLower "").data <:+: (pyLower r.name).data)) st.table =
        st.table :=
      List.filter_eq_self.mpr fun a _ => by
        rw [decide_eq_true_iff, hempty]
        exact List.nil_infix
    rw [Option.getD_none, hall]
    exact sortRowsDesc_perm _
  | some s =>
    rcases hwild s rfl with ⟨hp, hu⟩
    rcases pyLower_no_wildcard hp hu with ⟨hp', hu'⟩
    have hl : list_images st (some s) =
        if s.isEmpty then sortRowsDesc st.table
        else sortRowsDesc
          (List.filter
            (fun r => likeMatch ('%' :: ((pyLower s).data ++ ['%'])) (pyLower r.name).data)
            st.table) := rfl
    by_cases hs : s.isEmpty = true
    · have hs' : s = "" := (String.isEmpty_iff s).mp hs
      subst hs'
      rw [hl, if_pos hs]
      refine ⟨sortRowsDesc_sorted _, ?_⟩
      have hall : List.filter
          (fun r => decide ((pyLower "").data <:+: (pyLower r.name).data)) st.table =
          st.table :=
        List.filter_eq_self.mpr fun a _ => by
          rw [decide_eq_true_iff, hempty]
          exact List.nil_infix
      rw [Option.getD_some, hall]
      exact sortRowsDesc_perm _
    · rw [hl, if_neg hs]
      refine ⟨sortRowsDesc_sorted _, ?_⟩
      have hcongr : List.filter
          (fun r => likeMatch ('%' :: ((pyLower s).data ++ ['%'])) (pyLower r.name).data)
          st.table =
          List.filter
            (fun r => decide ((pyLower ((some s).getD "")).data <:+: (pyLower r.name).data))
            st.table := by
        apply List.filter_congr
        intro r _
        rw [Bool.eq_iff_iff, decide_eq_true_iff, Option.getD_some]
        exact likeMatch_infix _ _ hp' hu'
      rw [← hcongr]
      exact sortRowsDesc_perm _

theorem c4_witness :
    List.Sorted createdGE (list_images sysX (some "AB")) ∧
    (list_images sysX (some "AB")).Perm
      (List.filter
        (fun r => decide ((pyLower ((some "AB").getD "")).data <:+: (pyLower r.name).data))
        sysX.table) :=
  c4_list_sorted_filtered sysX (some "AB")
    (fun s h => by cases Option.some.inj h; exact ⟨by decide, by decide⟩)

/-- Claim C8: an upload request with an empty file sequence is rejected
as a whole with HTTP 400 ("No files provided."), before any state is
touched — never an empty success response. -/
theorem c8_empty_batch_rejected (env : Env) (cfg : Config) (st : Sys) (k : Nat) :
    upload env cfg st k [] = (Except.error ⟨400, "No files provided."⟩, st) := rfl

/-! ## Lemmas about deletion and listing membership -/

/-- Whenever the id is found, the delete route answers `{"ok": true}` and
the table keeps exactly the other rows; the filesystem ends in whatever
state the best-effort removal left it. -/
theorem delete_image_found (env : Env) (cfg : Config) (st : Sys) (iid : String)
    (row : ImageItem) (h : List.find? (fun r => r.id == iid) st.table = some row) :
    ∃ fs₂ : FS, delete_image env cfg st iid =
      (Except.ok ⟨true⟩, ⟨List.filter (fun r => !(r.id == iid)) st.table, fs₂⟩) := by
  unfold delete_image
  rw [h]
  exact ⟨_, rfl⟩

/-- The rows surviving a delete never carry the deleted id. -/
theorem find?_filter_ne (iid : String) (l : List ImageItem) :
    List.find? (fun r => r.id == iid) (List.filter (fun r => !(r.id == iid)) l) =
      none := by
  apply List.find?_eq_none.mpr
  intro x hx habs
  have h2 := (List.mem_filter.mp hx).2
  rw [habs] at h2
  exact absurd h2 (by simp)

/-- Everything `list_images` returns is a stored row. -/
theorem mem_list_images {st : Sys} {search : Option String} {r : ImageItem}
    (h : r ∈ list_images st search) : r ∈ st.table := by
  cases search with
  | none => exact (sortRowsDesc_perm _).mem_iff.mp h
  | some s =>
    have hl : list_images st (some s) =
        if s.isEmpty then sortRowsDesc st.table
        else sortRowsDesc
          (List.filter
            (fun r => likeMatch ('%' :: ((pyLower s).data ++ ['%'])) (pyLower r.name).data)
            st.table) := rfl
    rw [hl] at h
    by_cases hs : s.isEmpty = true
    · rw [if_pos hs] at h
      exact (sortRowsDesc_perm _).mem_iff.mp h
    · rw [if_neg hs] at h
      exact (List.filter_sublist st.table).subset ((sortRowsDesc_perm _).mem_iff.mp h)

/-! ## Claims about deletion -/

/-- Claim C5: deleting a present id removes exactly that record — it no
longer appears in any later `list` result nor in the store lookup — and a
second delete of the same id answers 404; deleting an absent id answers
404 and leaves the state untouched. -/
theorem c5_delete_removes_then_404 (env : Env) (cfg : Config) (st : Sys)
    (iid : String) (row : ImageItem) (h : get_image st iid = some row) :
    ∃ fs₂ : FS,
      delete_image env cfg st iid =
        (Except.ok ⟨true⟩, ⟨List.filter (fun r => !(r.id == iid)) st.table, fs₂⟩) ∧
      get_image ⟨List.filter (fun r => !(r.id == iid)) st.table, fs₂⟩ iid = none ∧
      (∀ (s : Option String) (r₂ : ImageItem),
        r₂ ∈ list_images ⟨List.filter (fun r => !(r.id == iid)) st.table, fs₂⟩ s →
          ¬ r₂.id = iid) ∧
      delete_image env cfg ⟨List.filter (fun r => !(r.id == iid)) st.table, fs₂⟩ iid =
        (Except.error ⟨404, "Not found"⟩,
         ⟨List.filter (fun r => !(r.id == iid)) st.table, fs₂⟩) ∧
      (∀ (st₃ : Sys) (j : String), get_image st₃ j = none →
        delete_image env cfg st₃ j = (Except.error ⟨404, "Not found"⟩, st₃)) := by
  rcases delete_image_found env cfg st iid row h with ⟨fs₂, hdel⟩
  have hnone : ∀ fs : FS,
      get_image ⟨List.filter (fun r => !(r.id == iid)) st.table, fs⟩ iid = none :=
    fun fs => find?_filter_ne iid st.table
  have h404 : ∀ (st₃ : Sys) (j : String), get_image st₃ j = none →
      delete_image env cfg st₃ j = (Except.error ⟨404, "Not found"⟩, st₃) := by
    intro st₃ j hj
    unfold delete_image
    unfold get_image at hj
    rw [hj]
  refine ⟨fs₂, hdel, hnone fs₂, ?_, h404 _ iid (hnone fs₂), h404⟩
  intro s r₂ hr₂ habs
  have hmem := mem_list_images hr₂
  have h2 := (List.mem_filter.mp hmem).2
  rw [habs] at h2
  exact absurd h2 (by simp)

theorem c5_witness :
    ∃ fs₂ : FS,
      delete_image envW cfgW sysX "1" =
        (Except.ok ⟨true⟩, ⟨List.filter (fun r => !(r.id == "1")) sysX.table, fs₂⟩) ∧
      get_image ⟨List.filter (fun r => !(r.id == "1")) sysX.table, fs₂⟩ "1" = none ∧
      (∀ (s : Option String) (r₂ : ImageItem),
        r₂ ∈ list_images ⟨List.filter (fun r => !(r.id == "1")) sysX.table, fs₂⟩ s →
          ¬ r₂.id = "1") ∧
      delete_image envW cfgW ⟨List.filter (fun r => !(r.id == "1")) sysX.table, fs₂⟩ "1" =
        (Except.error ⟨404, "Not found"⟩,
         ⟨List.filter (fun r => !(r.id == "1")) sysX.table, fs₂⟩) ∧
      (∀ (st₃ : Sys) (j : String), get_image st₃ j = none →
        delete_image envW cfgW st₃ j = (Except.error ⟨404, "Not found"⟩, st₃)) :=
  c5_delete_removes_then_404 envW cfgW sysX "1" rowX (by decide)

/-- Claim C9: for a present id the file removal is best-effort only: for
any two removal-fault/file-presence environments the delete operation
returns the same `{"ok": true}` response with the same resulting table
(the row removed) — success does not depend on whether the backing file
was actually deleted. -/
theorem c9_delete_file_removal_best_effort (env₁ env₂ : Env) (cfg : Config)
    (st : Sys) (iid : String) (row : ImageItem) (h : get_image st iid = some row) :
    ∃ fs₁ fs₂ : FS,
      delete_image env₁ cfg st iid =
        (Except.ok ⟨true⟩, ⟨List.filter (fun r => !(r.id == iid)) st.table, fs₁⟩) ∧
      delete_image env₂ cfg st iid =
        (Except.ok ⟨true⟩, ⟨List.filter (fun r => !(r.id == iid)) st.table, fs₂⟩) := by
  rcases delete_image_found env₁ cfg st iid row h with ⟨fs₁, h₁⟩
  rcases delete_image_found env₂ cfg st iid row h with ⟨fs₂, h₂⟩
  exact ⟨fs₁, fs₂, h₁, h₂⟩

theorem c9_witness :
    ∃ fs₁ fs₂ : FS,
      delete_image envW cfgW sysX "1" =
        (Except.ok ⟨true⟩, ⟨List.filter (fun r => !(r.id == "1")) sysX.table, fs₁⟩) ∧
      delete_image envNoRemove cfgW sysX "1" =
        (Except.ok ⟨true⟩, ⟨List.filter (fun r => !(r.id == "1")) sysX.table, fs₂⟩) :=
  c9_delete_file_removal_best_effort envW envNoRemove cfgW sysX "1" rowX (by decide)

/-! ## Claims about the public URL and the file-serving endpoint -/

/-- Claim C7: the public-URL computation is a pure function of the path
and the configured roots; it yields a direct static URL (the "/static/"
form built from the path relative to the static root) precisely when the
path lies beneath the publicly served static root, and otherwise the
indirect "/api/file/" URL naming the file's bare name. -/
theorem c7_public_url_shape (cfg : Config) (p : List String) :
    (cfg.staticDir <+: p →
      build_public_url cfg p =
        "/static/" ++ (if (p.drop cfg.staticDir.length).isEmpty then "."
          else String.intercalate "/" (p.drop cfg.staticDir.length))) ∧
    (¬ cfg.staticDir <+: p →
      build_public_url cfg p = "/api/file/" ++ p.getLastD "") ∧
    (("/static/".data <+: (build_public_url cfg p).data) ↔ cfg.staticDir <+: p) := by
  by_cases hpre : cfg.staticDir <+: p
  · refine ⟨fun _ => ?_, fun hn => absurd hpre hn, ?_⟩
    · unfold build_public_url
      rw [if_pos hpre]
    · constructor
      · intro _
        exact hpre
      · intro _
        unfold build_public_url
        rw [if_pos hpre, String.data_append]
        exact List.prefix_append _ _
  · refine ⟨fun hy => absurd hy hpre, fun _ => ?_, ?_⟩
    · unfold build_public_url
      rw [if_neg hpre]
    · constructor
      · intro habs
        exfalso
        unfold build_public_url at habs
        rw [if_neg hpre, String.data_append] at habs
        rcases List.cons_prefix_cons.mp habs with ⟨_, habs2⟩
        rcases List.cons_prefix_cons.mp habs2 with ⟨hch, _⟩
        exact absurd hch (by decide)
      · intro hy
        exact absurd hy hpre

theorem c7_witness :
    (cfgW.staticDir <+: ["app", "static", "images", "i.png"] →
      build_public_url cfgW ["app", "static", "images", "i.png"] =
        "/static/" ++
          (if ((["app", "static", "images", "i.png"] : List String).drop
              cfgW.staticDir.length).isEmpty then "."
           else String.intercalate "/"
             ((["app", "static", "images", "i.png"] : List String).drop
               cfgW.staticDir.length))) ∧
    (¬ cfgW.staticDir <+: ["app", "static", "images", "i.png"] →
      build_public_url cfgW ["app", "static", "images", "i.png"] =
        "/api/file/" ++ (["app", "static", "images", "i.png"] : List String).getLastD "") ∧
    (("/static/".data <+:
        (build_public_url cfgW ["app", "static", "images", "i.png"]).data) ↔
      cfgW.staticDir <+: ["app", "static", "images", "i.png"]) :=
  c7_public_url_shape cfgW ["app", "static", "images", "i.png"]

/-- Claim C10: the file-serving endpoint returns the content of
`IMAGE_DIR/name` whenever that file exists, whatever its content — there
is no restriction to canonical image files — and the metadata database
file sits at exactly `IMAGE_DIR/images.db`, so it is retrievable through
the endpoint under the name "images.db". -/
theorem c10_serve_file_unrestricted (cfg : Config) (st : Sys) (name : String)
    (d : FileData) (h : fsLookup st.files (cfg.imageDir ++ [name]) = some d) :
    serve_file cfg st name = Except.ok d ∧
    DB_PATH cfg = cfg.imageDir ++ ["images.db"] := by
  unfold serve_file
  rw [h]
  exact ⟨rfl, rfl⟩

theorem c10_witness :
    serve_file cfgW sysDB "images.db" = Except.ok (FileData.dbFile [rowX]) ∧
    DB_PATH cfgW = cfgW.imageDir ++ ["images.db"] :=
  c10_serve_file_unrestricted cfgW sysDB "images.db" (FileData.dbFile [rowX]) (by decide)

/-! ## Claims about the codec adapters -/

/-- Claim C6 counterexample: the `src/main.py` adapter decodes this input
successfully, yet its canonical PNG output keeps the decoded 3-channel
(alpha-less) layout — `to_png_bytes` re-encodes the array exactly as
decoded and never normalizes the color channels to include alpha. -/
theorem c6_counterexample :
    to_png_bytes libRGB [0] = some (⟨⟨1, 1, 3, [0, 0, 0]⟩⟩, 1, 1, "unknown") ∧
    pngArrHasAlpha ⟨⟨1, 1, 3, [0, 0, 0]⟩⟩ = false := ⟨rfl, rfl⟩

/-- Claim C6 (amended): both adapters emit the single fixed encoding
(PNG) and fail with `UnreadableImage` exactly when the underlying codec
cannot read the input; the backend (PIL) adapter normalizes the decoded
channels to RGBA (alpha included), while the `src/main.py` (imageio)
adapter re-encodes the decoded array with its channel layout unchanged,
performing no alpha normalization. -/
theorem c6_codec_adapters (libP : PILLib) (lib : ImageioLib) (raw : List Nat) :
    (∀ (p : PngPIL) (w h : Nat) (fmt : String),
      backend_to_png_bytes libP raw = some (p, w, h, fmt) → p.img.mode = "RGBA") ∧
    (backend_to_png_bytes libP raw = none ↔ libP.pilOpen raw = none) ∧
    (∀ (p : PngArr) (w h : Nat) (fmt : String),
      to_png_bytes lib raw = some (p, w, h, fmt) →
        lib.imread raw = some p.arr ∧ w = p.arr.shape1 ∧ h = p.arr.shape0) ∧
    (to_png_bytes lib raw = none ↔ lib.imread raw = none) := by
  refine ⟨?_, ?_, ?_, ?_⟩
  · intro p w h fmt hp
    unfold backend_to_png_bytes at hp
    rcases hop : libP.pilOpen raw with _ | im₀
    · rw [hop] at hp
      exact absurd hp (by simp)
    · rw [hop] at hp
      have := (Option.some.inj hp)
      have hpng : p = ⟨convertRGBA im₀⟩ := (congrArg Prod.fst this).symm
      rw [hpng]
      rfl
  · unfold backend_to_png_bytes
    rcases hop : libP.pilOpen raw with _ | im₀
    · simp
    · simp
  · intro p w h fmt hp
    unfold to_png_bytes at hp
    rcases hrd : lib.imread raw with _ | a
    · rw [hrd] at hp
      exact absurd hp (by simp)
    · rw [hrd] at hp
      have heq := Option.some.inj hp
      have hpng : p = ⟨a⟩ := (congrArg Prod.fst heq).symm
      have hw : w = a.shape1 := (congrArg (fun x => x.2.1) heq).symm
      have hh : h = a.shape0 := (congrArg (fun x => x.2.2.1) heq).symm
      rw [hpng]
      exact ⟨rfl, hw, hh⟩
  · unfold to_png_bytes
    rcases hrd : lib.imread raw with _ | a
    · simp
    · simp

theorem c6_witness :
    ((⟨⟨some "BMP", "RGBA", 2, 3, [5]⟩⟩ : PngPIL).img.mode = "RGBA") ∧
    (libRGB.imread [0] = some ⟨1, 1, 3, [0, 0, 0]⟩ ∧ (1 : Nat) = 1 ∧ (1 : Nat) = 1) :=
  ⟨(c6_codec_adapters pilW libRGB [1]).1 ⟨⟨some "BMP", "RGBA", 2, 3, [5]⟩⟩ 2 3 "BMP" rfl,
   (c6_codec_adapters pilW libRGB [0]).2.2.1 ⟨⟨1, 1, 3, [0, 0, 0]⟩⟩ 1 1 "unknown" rfl⟩

